import Mathlib

/-
Shallow embedding of the draw-board drawing engine (the `useDraw` hook and its
helper functions in the main hook source file, plus the simpler `useBoard`
variant in use-board.ts).

Modelling conventions:
- JS numbers are modelled as rationals (ℚ); numeric literals such as 0.2, 5,
  0.1 are exact rationals.
- `Math.sqrt` and text measurement (`ctx.measureText(...).width`) are
  parameters of the model, bundled in `Env`: no claim settled here depends on
  their numeric values.
- React `useState` state is a single `State` record; each event handler is a
  pure function `State → State`.  `setX(v)` becomes a record update; a
  functional update `setX(prev => f prev)` also becomes a record update, and
  where the source mixes a functional update with closure-captured values of
  other state variables (e.g. `createHistory` captures `historyIndex`, the
  shift-click branch captures `selectedIndices`), the embedding reads the
  pre-event values exactly as the closure does.
- The source field name `end` (a Lean keyword) is rendered `endP`.
- Out-of-range array reads, which would throw at a property access in JS, are
  modelled with `getD`/`[·]?`; theorems that depend on such reads carry
  in-range hypotheses.
-/

namespace DrawBoard

/-- A point in canvas (document) coordinates; source type `Point`. -/
@[ext]
structure Point where
  x : ℚ
  y : ℚ
deriving DecidableEq, Repr

/-- Source type `ShapeType`. -/
inductive ShapeType where
  | rectangle
  | circle
  | line
  | arrow
deriving DecidableEq, Repr

/-- Source type `Tool` (the advanced variant, which includes `hand`). -/
inductive Tool where
  | select
  | text
  | pen
  | pencil
  | eraser
  | highlighter
  | hand
  | rectangle
  | circle
  | line
  | arrow
deriving DecidableEq, Repr

/-- Source interface `Stroke`. -/
structure Stroke where
  points : List Point
  color : String
  size : ℚ
  tool : Tool
deriving DecidableEq, Repr

/-- Source interface `Shape`; the field `end` is rendered `endP`. -/
structure Shape where
  type : ShapeType
  start : Point
  endP : Point
  color : String
  size : ℚ
  tool : Tool
deriving DecidableEq, Repr

/-- Source interface `TextObject`. -/
structure TextObject where
  text : String
  position : Point
  color : String
  size : ℚ
  font : String
deriving DecidableEq, Repr

/-- Source tagged union `DrawingObject`. -/
inductive DrawingObject where
  | stroke (data : Stroke)
  | shape (data : Shape)
  | text (data : TextObject)
deriving DecidableEq, Repr

/-- Source interface `SelectionBox`; the field `end` is rendered `endP`. -/
structure SelectionBox where
  start : Point
  endP : Point
deriving DecidableEq, Repr

/-- The possible values of the `current` state variable
(`Stroke | Shape | TextObject | SelectionBox`, with `null` as `Option`). -/
inductive Current where
  | stroke (s : Stroke)
  | shape (sh : Shape)
  | text (t : TextObject)
  | selBox (b : SelectionBox)
deriving DecidableEq, Repr

/-- Source type `ResizeHandle` with `null` split off into `Option`. -/
inductive Handle where
  | topLeft
  | topRight
  | bottomLeft
  | bottomRight
deriving DecidableEq, Repr

/-- An axis-aligned box `{x, y, width, height}` as returned by the bounds
utilities. -/
@[ext]
structure Bounds where
  x : ℚ
  y : ℚ
  width : ℚ
  height : ℚ
deriving DecidableEq, Repr

/-- Environment for the two library primitives the geometry code calls:
`Math.sqrt` and text measurement (`ctx.measureText(text).width` after
`ctx.font` has been set from the size and family).  No theorem below depends
on their values. -/
structure Env where
  measureTextWidth : String → ℚ → String → ℚ
  sqrt : ℚ → ℚ

/-- Default object used to totalize out-of-range list reads that would throw
in JS; theorems carry in-range hypotheses wherever it could matter. -/
def defaultObject : DrawingObject := .stroke ⟨[], "", 0, .pen⟩

/-- Source `getShapeBounds`. -/
def getShapeBounds (env : Env) (shape : Shape) : Bounds :=
  if shape.type = .circle then
    let width := shape.endP.x - shape.start.x
    let height := shape.endP.y - shape.start.y
    let radius := env.sqrt (width ^ 2 + height ^ 2)
    ⟨shape.start.x - radius, shape.start.y - radius, radius * 2, radius * 2⟩
  else
    let minX := min shape.start.x shape.endP.x
    let minY := min shape.start.y shape.endP.y
    let maxX := max shape.start.x shape.endP.x
    let maxY := max shape.start.y shape.endP.y
    ⟨minX, minY, maxX - minX, maxY - minY⟩

/-- Source `getStrokeBounds`.  The source initializes the accumulators at
`points[0]` and then folds `Math.min`/`Math.max` over every point (the first
point is revisited, which is harmless). -/
def getStrokeBounds (points : List Point) : Bounds :=
  match points with
  | [] => ⟨0, 0, 0, 0⟩
  | p :: _ =>
    let minX := points.foldl (fun m q => min m q.x) p.x
    let minY := points.foldl (fun m q => min m q.y) p.y
    let maxX := points.foldl (fun m q => max m q.x) p.x
    let maxY := points.foldl (fun m q => max m q.y) p.y
    ⟨minX, minY, maxX - minX, maxY - minY⟩

/-- Source `getTextBounds`; `1.2` is the exact rational 6/5. -/
def getTextBounds (env : Env) (t : TextObject) : Bounds :=
  ⟨t.position.x, t.position.y - t.size,
   env.measureTextWidth t.text t.size t.font, t.size * (6/5)⟩

/-- The per-object bounds dispatch that `getGroupBounds` / `getPosition` /
`getObjectsInSelection` each inline (`stroke → getStrokeBounds`,
`shape → getShapeBounds`, `text → getTextBounds`; the measurement context is
always available in the model, so the `null` fallback of the text case never
fires). -/
def objectBounds (env : Env) : DrawingObject → Bounds
  | .stroke s => getStrokeBounds s.points
  | .shape sh => getShapeBounds env sh
  | .text t => getTextBounds env t

/-- Source `isPointInBounds`. -/
def isPointInBounds (p : Point) (b : Bounds) : Prop :=
  b.x ≤ p.x ∧ p.x ≤ b.x + b.width ∧ b.y ≤ p.y ∧ p.y ≤ b.y + b.height

instance (p : Point) (b : Bounds) : Decidable (isPointInBounds p b) := by
  unfold isPointInBounds; infer_instance

/-- Source `isBoundsInSelection` (any-overlap test used by rubber-band
selection). -/
def isBoundsInSelection (b : Bounds) (sel : SelectionBox) : Prop :=
  let minX := min sel.start.x sel.endP.x
  let maxX := max sel.start.x sel.endP.x
  let minY := min sel.start.y sel.endP.y
  let maxY := max sel.start.y sel.endP.y
  minX ≤ b.x + b.width ∧ b.x ≤ maxX ∧ minY ≤ b.y + b.height ∧ b.y ≤ maxY

instance (b : Bounds) (sel : SelectionBox) : Decidable (isBoundsInSelection b sel) := by
  unfold isBoundsInSelection; infer_instance

/-- The loop body of `getGroupBounds`: fold one index into the running
`(minX, minY, maxX, maxY)` accumulators, where `none` stands for the four
accumulators still at their `±Infinity` initializers.  An out-of-range index
(whose `.type` access would throw in JS) is skipped; theorems restrict to
in-range index sets. -/
def groupStep (env : Env) (objects : List DrawingObject)
    (acc : Option (ℚ × ℚ × ℚ × ℚ)) (idx : ℕ) : Option (ℚ × ℚ × ℚ × ℚ) :=
  match objects[idx]? with
  | none => acc
  | some obj =>
    let b := objectBounds env obj
    match acc with
    | none => some (b.x, b.y, b.x + b.width, b.y + b.height)
    | some (mnx, mny, mxx, mxy) =>
      some (min mnx b.x, min mny b.y,
            max mxx (b.x + b.width), max mxy (b.y + b.height))

/-- Source `getGroupBounds`. -/
def getGroupBounds (env : Env) (objects : List DrawingObject) (indices : List ℕ) :
    Option Bounds :=
  if indices = [] then none
  else
    match indices.foldl (groupStep env objects) none with
    | none => none
    | some (mnx, mny, mxx, mxy) => some ⟨mnx, mny, mxx - mnx, mxy - mny⟩

/-- Source `scalePoint`: scale a point relative to an anchor. -/
def scalePoint (point : Point) (anchor : Point) (scaleX scaleY : ℚ) : Point :=
  ⟨anchor.x + (point.x - anchor.x) * scaleX,
   anchor.y + (point.y - anchor.y) * scaleY⟩

/-- Source `resizeObject`.  As in the source, the `newBounds` and
`initialBounds` parameters are accepted but unused by the body. -/
def resizeObject (originalObj : DrawingObject) (_newBounds _initialBounds : Bounds)
    (scaleX scaleY : ℚ) (anchor : Point) : DrawingObject :=
  match originalObj with
  | .stroke st =>
    .stroke { st with points := st.points.map fun p => scalePoint p anchor scaleX scaleY }
  | .shape sh =>
    .shape { sh with
      start := scalePoint sh.start anchor scaleX scaleY,
      endP := scalePoint sh.endP anchor scaleX scaleY }
  | .text t =>
    let avgScale := (scaleX + scaleY) / 2
    .text { t with
      position := scalePoint t.position anchor scaleX scaleY,
      size := max 8 (min 200 (t.size * avgScale)) }

/-- The anchor corner diagonally opposite a resize handle.  The source inlines
this if-chain twice inside `performResize` (group and single branch), with the
`bottom-right` case as the default initializer `{x: bounds.x, y: bounds.y}`. -/
def oppositeCorner (h : Handle) (b : Bounds) : Point :=
  match h with
  | .topLeft => ⟨b.x + b.width, b.y + b.height⟩
  | .topRight => ⟨b.x, b.y + b.height⟩
  | .bottomLeft => ⟨b.x + b.width, b.y⟩
  | .bottomRight => ⟨b.x, b.y⟩

/-- Source `getResizeHandle` (handleSize 8, tolerance 8, handles drawn 5 units
outside the box corners). -/
def getResizeHandle (x y : ℚ) (b : Bounds) : Option Handle :=
  let tolerance : ℚ := 8
  if |x - (b.x - 5)| ≤ tolerance ∧ |y - (b.y - 5)| ≤ tolerance then
    some .topLeft
  else if |x - (b.x + b.width + 5)| ≤ tolerance ∧ |y - (b.y - 5)| ≤ tolerance then
    some .topRight
  else if |x - (b.x - 5)| ≤ tolerance ∧ |y - (b.y + b.height + 5)| ≤ tolerance then
    some .bottomLeft
  else if |x - (b.x + b.width + 5)| ≤ tolerance ∧ |y - (b.y + b.height + 5)| ≤ tolerance then
    some .bottomRight
  else
    none

/-- The object "position" reference point the source computes inline in three
places (`onDrawing` drag branch, shift-click branch, plain click branch):
first point of a stroke, `start` of a shape, `position` of a text.  The
initializer `{x: 0, y: 0}` is the `headD` default (in JS a stroke with no
points would throw at `firstPoint.x`; theorems restrict to well-formed
strokes where it matters). -/
def objPosition : DrawingObject → Point
  | .stroke st => st.points.headD ⟨0, 0⟩
  | .shape sh => sh.start
  | .text t => t.position

/-- The full `useDraw` hook state: the hook options (`tool`, `color`, `size`,
`backgroundColor`) together with every `useState` variable, in source order. -/
structure State where
  tool : Tool
  color : String
  size : ℚ
  backgroundColor : String
  objects : List DrawingObject
  current : Option Current
  isDrawing : Bool
  history : List (List DrawingObject)
  historyIndex : ℕ
  isDragging : Bool
  dragOffset : Option Point
  selectedIndices : List ℕ
  isEditingText : Bool
  textPosition : Option Point
  isResizing : Bool
  resizeHandle : Option Handle
  initialBounds : Option Bounds
  initialMousePos : Option Point
  resizeStartData : List DrawingObject
  canvasOffset : Point
  zoom : ℚ
  isPanning : Bool
  panStart : Option Point
deriving DecidableEq, Repr

/-- The initial hook state: every `useState` initializer, in particular
`history = [[]]` (one empty scene) and `historyIndex = 0`. -/
def initState (tool : Tool) (color : String) (size : ℚ) (backgroundColor : String) : State :=
  { tool := tool
    color := color
    size := size
    backgroundColor := backgroundColor
    objects := []
    current := none
    isDrawing := false
    history := [[]]
    historyIndex := 0
    isDragging := false
    dragOffset := none
    selectedIndices := []
    isEditingText := false
    textPosition := none
    isResizing := false
    resizeHandle := none
    initialBounds := none
    initialMousePos := none
    resizeStartData := []
    canvasOffset := ⟨0, 0⟩
    zoom := 1
    isPanning := false
    panStart := none }

/-- Source `screenToCanvas`: the screen→document mapping
`(screenPos − offset) / zoom`. -/
def screenToCanvas (s : State) (screenX screenY : ℚ) : Point :=
  ⟨(screenX - s.canvasOffset.x) / s.zoom, (screenY - s.canvasOffset.y) / s.zoom⟩

/-- Source `createHistory`: truncate the history at the cursor
(`prev.slice(0, historyIndex + 1)`), append the snapshot, advance the cursor.
The source uses a functional `setHistory` update but reads the
closure-captured `historyIndex`, which in the sequential model is the
pre-call cursor. -/
def createHistory (newObjects : List DrawingObject) (s : State) : State :=
  { s with
    history := s.history.take (s.historyIndex + 1) ++ [newObjects]
    historyIndex := s.historyIndex + 1 }

/-- A committed operation: every committing gesture in the source runs
`setObjects(newObjects)` together with `createHistory(newObjects)`
(stroke/shape commit and drag/resize release in `onStopDrawing`, `addText`,
`clear`, `deleteSelected`). -/
def commit (s : State) (newObjects : List DrawingObject) : State :=
  createHistory newObjects { s with objects := newObjects }

/-- Source `undo`. -/
def undo (s : State) : State :=
  if 0 < s.historyIndex then
    let newIndex := s.historyIndex - 1
    { s with
      historyIndex := newIndex
      objects := s.history.getD newIndex []
      selectedIndices := [] }
  else s

/-- Source `redo`. -/
def redo (s : State) : State :=
  if s.historyIndex < s.history.length - 1 then
    let newIndex := s.historyIndex + 1
    { s with
      historyIndex := newIndex
      objects := s.history.getD newIndex []
      selectedIndices := [] }
  else s

/-- Source `clear`: a no-op on an empty scene, otherwise empty the scene,
clear the selection and push one history snapshot. -/
def clear (s : State) : State :=
  if s.objects = [] then s
  else commit { s with selectedIndices := [] } []

/-- Source `moveSelectedObjects`: translate every selected object by
`(offsetX, offsetY)`; an out-of-range index (`if (!obj) return`) is
skipped. -/
def moveSelectedObjects (offsetX offsetY : ℚ) (s : State) : State :=
  let newObjects := s.selectedIndices.foldl
    (fun objs index =>
      match objs[index]? with
      | none => objs
      | some (.stroke st) =>
        objs.set index (.stroke { st with
          points := st.points.map fun p => ⟨p.x + offsetX, p.y + offsetY⟩ })
      | some (.shape sh) =>
        objs.set index (.shape { sh with
          start := ⟨sh.start.x + offsetX, sh.start.y + offsetY⟩,
          endP := ⟨sh.endP.x + offsetX, sh.endP.y + offsetY⟩ })
      | some (.text t) =>
        objs.set index (.text { t with
          position := ⟨t.position.x + offsetX, t.position.y + offsetY⟩ }))
    s.objects
  { s with objects := newObjects }

/-- Source `performResize`.  The group branch (`selectedIndices.length > 1`)
resizes each selected object from the deep-copied `resizeStartData`; pairing
`resizeStartData[i]` with `selectedIndices[i]` and skipping a missing
`resizeStartData[i]` (`if (!originalObj) return`) is rendered as a fold over
`resizeStartData.zip selectedIndices`.  In JS, `updatedObjects[idx] = ...` at
an out-of-range `idx` would grow the array; `List.set` drops it, and theorems
restrict to in-range selections.  The single branch requires
`resizeStartData.length === 1`. -/
def performResize (x y : ℚ) (s : State) : State :=
  if ¬ (s.isResizing = true) ∨ s.selectedIndices = [] then s
  else
    match s.resizeHandle, s.initialBounds, s.initialMousePos with
    | some handle, some initialBounds, some initialMousePos =>
      if 1 < s.selectedIndices.length then
        let anchor := oppositeCorner handle initialBounds
        let newX := min anchor.x x
        let newY := min anchor.y y
        let newWidth := max 10 |x - anchor.x|
        let newHeight := max 10 |y - anchor.y|
        let scaleX := max (1/5) (min 5 (newWidth / initialBounds.width))
        let scaleY := max (1/5) (min 5 (newHeight / initialBounds.height))
        let newBounds : Bounds := ⟨newX, newY, newWidth, newHeight⟩
        let updatedObjects := (s.resizeStartData.zip s.selectedIndices).foldl
          (fun objs p =>
            objs.set p.2 (resizeObject p.1 newBounds initialBounds scaleX scaleY anchor))
          s.objects
        { s with objects := updatedObjects }
      else if s.selectedIndices.length = 1 ∧ s.resizeStartData.length = 1 then
        match s.resizeStartData with
        | [originalObj] =>
          let deltaX := x - initialMousePos.x
          let deltaY := y - initialMousePos.y
          let minSize : ℚ := 10
          let newBounds : Bounds :=
            match handle with
            | .topLeft =>
              ⟨min (initialBounds.x + deltaX) (initialBounds.x + initialBounds.width - minSize),
               min (initialBounds.y + deltaY) (initialBounds.y + initialBounds.height - minSize),
               max minSize (initialBounds.width - deltaX),
               max minSize (initialBounds.height - deltaY)⟩
            | .topRight =>
              ⟨initialBounds.x,
               min (initialBounds.y + deltaY) (initialBounds.y + initialBounds.height - minSize),
               max minSize (initialBounds.width + deltaX),
               max minSize (initialBounds.height - deltaY)⟩
            | .bottomLeft =>
              ⟨min (initialBounds.x + deltaX) (initialBounds.x + initialBounds.width - minSize),
               initialBounds.y,
               max minSize (initialBounds.width - deltaX),
               max minSize (initialBounds.height + deltaY)⟩
            | .bottomRight =>
              ⟨initialBounds.x, initialBounds.y,
               max minSize (initialBounds.width + deltaX),
               max minSize (initialBounds.height + deltaY)⟩
          let scaleX :=
            if 0 < initialBounds.width then
              max (1/5) (min 5 (newBounds.width / initialBounds.width))
            else 1
          let scaleY :=
            if 0 < initialBounds.height then
              max (1/5) (min 5 (newBounds.height / initialBounds.height))
            else 1
          let anchor := oppositeCorner handle initialBounds
          let updatedObjects :=
            s.objects.set (s.selectedIndices.headD 0)
              (resizeObject originalObj newBounds initialBounds scaleX scaleY anchor)
          { s with objects := updatedObjects }
        | _ => s
      else s
    | _, _, _ => s

/-- Auxiliary downward loop of `getPosition`: test index `n-1`, then `n-2`,
..., mirroring `for (let i = objects.length - 1; i >= 0; i--)`. -/
def getPositionAux (env : Env) (objects : List DrawingObject) (x y : ℚ) : ℕ → Option ℕ
  | 0 => none
  | n + 1 =>
    let obj := objects.getD n defaultObject
    let bounds := objectBounds env obj
    if isPointInBounds ⟨x, y⟩ bounds then some n
    else getPositionAux env objects x y n

/-- Source `getPosition`: topmost (highest z-order) object whose bounding box
contains the point, tested back-to-front. -/
def getPosition (env : Env) (objects : List DrawingObject) (x y : ℚ) : Option ℕ :=
  getPositionAux env objects x y objects.length

/-- Source `onDrawing` (pointer-move).  `screenX`/`screenY` are the source's
`e.clientX - rect.left` / `e.clientY - rect.top`.  In the drag branch the
first selected object is read from the live scene; the freehand branch
appends a point only when `current` is a stroke (`'type' in prev` skips
shapes) and the shape branch updates `end` only when `current` is a shape. -/
def onDrawing (screenX screenY : ℚ) (s : State) : State :=
  match s.isPanning, s.panStart, s.tool with
  | true, some panStart, .hand =>
    { s with
      canvasOffset := ⟨s.canvasOffset.x + (screenX - panStart.x),
                       s.canvasOffset.y + (screenY - panStart.y)⟩
      panStart := some ⟨screenX, screenY⟩ }
  | _, _, _ =>
    let p := screenToCanvas s screenX screenY
    if s.isResizing = true then performResize p.x p.y s
    else if s.isDragging = true ∧ s.selectedIndices ≠ [] ∧ s.dragOffset ≠ none then
      match s.selectedIndices, s.dragOffset with
      | i0 :: _, some dragOffset =>
        let firstObj := s.objects.getD i0 defaultObject
        let objPos := objPosition firstObj
        moveSelectedObjects (p.x - objPos.x - dragOffset.x) (p.y - objPos.y - dragOffset.y) s
      | _, _ => s
    else if s.isDrawing = false then s
    else
      match s.tool, s.current with
      | .select, some (.selBox sb) =>
        { s with current := some (.selBox ⟨sb.start, ⟨p.x, p.y⟩⟩) }
      | .select, some (.shape sh) =>
        -- 'start' in current && 'end' in current also holds for a Shape; the
        -- source then rebuilds current as a {start, end} object
        { s with current := some (.selBox ⟨sh.start, ⟨p.x, p.y⟩⟩) }
      | .pen, some (.stroke st) | .pencil, some (.stroke st)
      | .eraser, some (.stroke st) | .highlighter, some (.stroke st) =>
        { s with current := some (.stroke { st with points := st.points ++ [⟨p.x, p.y⟩] }) }
      | .rectangle, some (.shape sh) | .circle, some (.shape sh)
      | .line, some (.shape sh) | .arrow, some (.shape sh) =>
        { s with current := some (.shape { sh with endP := ⟨p.x, p.y⟩ }) }
      | _, _ => s

/-- The select-tool branch of `onStartDrawing` (lines after
`if (tool === 'select')`), with `x`/`y` already in document space.  Each
early-returning resize-handle block is an `Option State`; the capture of
`resizeStartData` for the single-selection block stores the deep-copied
object (the source stores it un-wrapped — a type slip — modelled as the
one-element list it is used as).  The shift-click branch updates the
selection functionally but reads the closure-captured pre-click
`selectedIndices` for its drag setup. -/
def selectPointerDown (env : Env) (x y : ℚ) (shiftKey : Bool) (s : State) : State :=
  let tryGroupA : Option State :=
    if s.selectedIndices ≠ [] then
      match getGroupBounds env s.objects s.selectedIndices with
      | some groupBounds =>
        if 0 < groupBounds.width ∧ 0 < groupBounds.height then
          match getResizeHandle x y groupBounds with
          | some handle =>
            some { s with
              isResizing := true
              resizeHandle := some handle
              initialBounds := some groupBounds
              initialMousePos := some ⟨x, y⟩
              resizeStartData := s.selectedIndices.map fun idx => s.objects.getD idx defaultObject }
          | none => none
        else none
      | none => none
    else none
  match tryGroupA with
  | some s' => s'
  | none =>
    let trySingle : Option State :=
      match s.selectedIndices with
      | [i0] =>
        let obj := s.objects.getD i0 defaultObject
        let bounds := objectBounds env obj
        if 0 < bounds.width ∧ 0 < bounds.height then
          match getResizeHandle x y bounds with
          | some handle =>
            some { s with
              isResizing := true
              resizeHandle := some handle
              initialBounds := some bounds
              initialMousePos := some ⟨x, y⟩
              resizeStartData := [obj] }
          | none => none
        else none
      | _ => none
    match trySingle with
    | some s' => s'
    | none =>
      let tryGroupB : Option State :=
        if 1 < s.selectedIndices.length then
          match getGroupBounds env s.objects s.selectedIndices with
          | some groupBounds =>
            if 0 < groupBounds.width ∧ 0 < groupBounds.height then
              match getResizeHandle x y groupBounds with
              | some handle =>
                some { s with
                  isResizing := true
                  resizeHandle := some handle
                  initialBounds := some groupBounds
                  initialMousePos := some ⟨x, y⟩
                  resizeStartData := [] }
              | none => none
            else none
          | none => none
        else none
      match tryGroupB with
      | some s' => s'
      | none =>
        match getPosition env s.objects x y with
        | none =>
          -- the shift branch is guarded by clickedIndex !== null, so a
          -- pointer-down on empty space starts a rubber-band selection box
          -- and clears the selection regardless of shiftKey
          { s with
            current := some (.selBox ⟨⟨x, y⟩, ⟨x, y⟩⟩)
            selectedIndices := []
            isDrawing := true }
        | some clickedIndex =>
          let isClickOnSelected := clickedIndex ∈ s.selectedIndices
          if shiftKey then
            let newSelection :=
              if isClickOnSelected then s.selectedIndices.filter (· ≠ clickedIndex)
              else s.selectedIndices ++ [clickedIndex]
            match s.selectedIndices with
            | i0 :: _ =>
              let obj := s.objects.getD i0 defaultObject
              let objPos := objPosition obj
              { s with
                selectedIndices := newSelection
                dragOffset := some ⟨x - objPos.x, y - objPos.y⟩
                isDragging := true }
            | [] => { s with selectedIndices := newSelection }
          else
            let newSelection :=
              if isClickOnSelected then s.selectedIndices else [clickedIndex]
            let obj := s.objects.getD clickedIndex defaultObject
            let objPos := objPosition obj
            { s with
              selectedIndices := newSelection
              dragOffset := some ⟨x - objPos.x, y - objPos.y⟩
              isDragging := true }

/-- Helper for the `tool as ShapeType` cast in `onStartDrawing`; only reached
for the four shape tools. -/
def toShapeType : Tool → ShapeType
  | .circle => .circle
  | .line => .line
  | .arrow => .arrow
  | _ => .rectangle

/-- Source `onStartDrawing` (pointer-down). -/
def onStartDrawing (screenX screenY : ℚ) (shiftKey : Bool) (env : Env) (s : State) : State :=
  if s.tool = .hand then
    { s with isPanning := true, panStart := some ⟨screenX, screenY⟩ }
  else
    let p := screenToCanvas s screenX screenY
    if s.tool = .select then
      selectPointerDown env p.x p.y shiftKey s
    else if s.tool = .text then
      { s with textPosition := some ⟨p.x, p.y⟩, isEditingText := true }
    else
      let s1 := { s with isDrawing := true }
      match s.tool with
      | .pen | .pencil | .eraser | .highlighter =>
        { s1 with current := some (.stroke ⟨[⟨p.x, p.y⟩], s.color, s.size, s.tool⟩) }
      | .rectangle | .circle | .line | .arrow =>
        let sh : Shape := ⟨toShapeType s.tool, ⟨p.x, p.y⟩, ⟨p.x, p.y⟩, s.color, s.size, s.tool⟩
        { s1 with current := some (.shape sh) }
      | _ => s1

/-- Source `handleWheel`.  `ctrlOrMeta` is `e.ctrlKey || e.metaKey`; the zoom
branch clamps the new zoom to `[0.2, 5]` and recomputes the offset so the
world point under the cursor stays fixed; the other branches scroll. -/
def handleWheel (ctrlOrMeta shiftKey : Bool) (mouseX mouseY deltaY : ℚ) (s : State) : State :=
  if ctrlOrMeta then
    let zoomChange : ℚ := if 0 < deltaY then -(1/10) else 1/10
    let newZoom := max (1/5) (min 5 (s.zoom + zoomChange))
    let worldPointX := (mouseX - s.canvasOffset.x) / s.zoom
    let worldPointY := (mouseY - s.canvasOffset.y) / s.zoom
    { s with
      zoom := newZoom
      canvasOffset := ⟨mouseX - worldPointX * newZoom, mouseY - worldPointY * newZoom⟩ }
  else if shiftKey then
    { s with canvasOffset := ⟨s.canvasOffset.x - deltaY * 50 / 100, s.canvasOffset.y⟩ }
  else
    { s with canvasOffset := ⟨s.canvasOffset.x, s.canvasOffset.y - deltaY * 50 / 100⟩ }

/-- The drawing-surface state of a 2D context: the style attributes the
render path assigns, plus the current transform (offset/scale pair, composed
by `translate`/`scale`).  Path-building and painting calls (`beginPath`,
`moveTo`, `lineTo`, `stroke`, `fill`, `fillRect`, `strokeRect`, `clearRect`,
`arc`, `roundRect`, `fillText`) touch pixels and path data only and are not
part of the modelled state. -/
structure CtxState where
  strokeStyle : String
  fillStyle : String
  lineWidth : ℚ
  globalAlpha : ℚ
  lineDash : List ℚ
  lineCap : String
  lineJoin : String
  font : String
  tfOffX : ℚ
  tfOffY : ℚ
  tfScaleX : ℚ
  tfScaleY : ℚ
deriving DecidableEq, Repr

/-- A 2D context: current surface state plus the `save`/`restore` stack. -/
structure Ctx where
  cur : CtxState
  stack : List CtxState
deriving DecidableEq, Repr

/-- Apply a surface-state mutation to the current context state. -/
def onCur (f : CtxState → CtxState) (c : Ctx) : Ctx :=
  { c with cur := f c.cur }

/-- `ctx.save()`. -/
def ctxSave (c : Ctx) : Ctx :=
  { c with stack := c.cur :: c.stack }

/-- `ctx.restore()` (a no-op on an empty stack, per the canvas spec). -/
def ctxRestore (c : Ctx) : Ctx :=
  match c.stack with
  | [] => c
  | top :: rest => ⟨top, rest⟩

/-- `ctx.translate(a, b)` composed onto the current transform. -/
def ctxTranslate (a b : ℚ) : Ctx → Ctx :=
  onCur fun st => { st with
    tfOffX := st.tfOffX + st.tfScaleX * a
    tfOffY := st.tfOffY + st.tfScaleY * b }

/-- `ctx.scale(zx, zy)` composed onto the current transform. -/
def ctxScale (zx zy : ℚ) : Ctx → Ctx :=
  onCur fun st => { st with
    tfScaleX := st.tfScaleX * zx
    tfScaleY := st.tfScaleY * zy }

/-- Source `drawStroke` restricted to its surface-state effects; an empty
stroke returns before touching the context. -/
def drawStroke (st : Stroke) : Ctx → Ctx :=
  onCur fun c =>
    if st.points = [] then c
    else
      let c1 :=
        match st.tool with
        | .pencil => { c with globalAlpha := 7/10, lineWidth := max 1 (st.size * (7/10)) }
        | .highlighter => { c with globalAlpha := 3/10, lineWidth := st.size * 2 }
        | _ => { c with lineWidth := st.size, globalAlpha := 1 }
      { c1 with
        lineJoin := "round"
        strokeStyle := st.color
        lineCap := if st.tool = .highlighter then "square" else "round" }

/-- Source `drawShape` restricted to its surface-state effects; the arrow case
additionally sets `fillStyle` for the arrowhead. -/
def drawShape (sh : Shape) : Ctx → Ctx :=
  onCur fun c =>
    let c1 := { c with lineWidth := sh.size, strokeStyle := sh.color, globalAlpha := 1 }
    match sh.type with
    | .arrow => { c1 with fillStyle := sh.color }
    | _ => c1

/-- Source `drawText` restricted to its surface-state effects. -/
def drawText (t : TextObject) : Ctx → Ctx :=
  onCur fun c =>
    { c with
      font := toString t.size ++ "px " ++ t.font
      fillStyle := t.color
      globalAlpha := 1 }

/-- The `objects.forEach` loop of `render`: eraser strokes have their `color`
field overwritten with the background color (`item.data.color =
backgroundColor`, an in-place mutation of the scene object) before being
painted.  Returns the scene as left by the loop together with the context. -/
def renderObjects (backgroundColor : String) :
    List DrawingObject → Ctx → List DrawingObject × Ctx
  | [], ctx => ([], ctx)
  | .stroke st :: rest, ctx =>
    let st' := if st.tool = .eraser then { st with color := backgroundColor } else st
    let r := renderObjects backgroundColor rest (drawStroke st' ctx)
    (.stroke st' :: r.1, r.2)
  | .shape sh :: rest, ctx =>
    let r := renderObjects backgroundColor rest (drawShape sh ctx)
    (.shape sh :: r.1, r.2)
  | .text t :: rest, ctx =>
    let r := renderObjects backgroundColor rest (drawText t ctx)
    (.text t :: r.1, r.2)

/-- The selection-overlay block of `render` (group bounding box plus four
corner handles), as its sequence of surface-state assignments. -/
def selectionOverlay (env : Env) (tool : Tool) (selectedIndices : List ℕ)
    (objects : List DrawingObject) (ctx : Ctx) : Ctx :=
  if tool = .select ∧ selectedIndices ≠ [] then
    match getGroupBounds env objects selectedIndices with
    | some _ =>
      let c1 := onCur (fun c => { c with
        lineDash := [5, 5], strokeStyle := "#3b82f6", lineWidth := 1, globalAlpha := 8/10 }) ctx
      let c2 := onCur (fun c => { c with
        fillStyle := "#3b82f6", globalAlpha := 1, lineDash := [] }) c1
      onCur (fun c => { c with lineDash := [], globalAlpha := 1 }) c2
    | none => ctx
  else ctx

/-- Whether `current` has both `start` and `end` properties (true for a
SelectionBox and for a Shape). -/
def hasStartEnd : Option Current → Bool
  | some (.selBox _) => true
  | some (.shape _) => true
  | _ => false

/-- The rubber-band selection-box block of `render`, as its sequence of
surface-state assignments. -/
def selBoxOverlay (tool : Tool) (isDrawing : Bool) (current : Option Current)
    (ctx : Ctx) : Ctx :=
  if tool = .select ∧ isDrawing = true ∧ hasStartEnd current = true then
    let c1 := onCur (fun c => { c with fillStyle := "rgba(59, 130, 246, 0.1)" }) ctx
    let c2 := onCur (fun c => { c with
      lineDash := [5, 5], strokeStyle := "#3b82f6", lineWidth := 1, globalAlpha := 8/10 }) c1
    onCur (fun c => { c with lineDash := [], globalAlpha := 1 }) c2
  else ctx

/-- The live-drawing block of `render`: the in-progress stroke or shape is
painted with its color replaced by the live tool color (background color for
the eraser). -/
def liveOverlay (tool : Tool) (color backgroundColor : String) (isDrawing : Bool)
    (current : Option Current) (ctx : Ctx) : Ctx :=
  if isDrawing = true then
    let background := if tool = .eraser then backgroundColor else color
    match current with
    | some (.stroke st) => drawStroke { st with color := background } ctx
    | some (.shape sh) => drawShape { sh with color := background } ctx
    | _ => ctx
  else ctx

/-- Source `render` (one frame): clear, save, apply the viewport transform,
paint every object (mutating eraser strokes' color in the scene), paint the
selection overlay, the rubber-band box and the live object, restore, and
reset `globalAlpha` to 1.  Returns the scene as left by the frame together
with the final context. -/
def render (env : Env) (s : State) (ctx0 : Ctx) : List DrawingObject × Ctx :=
  let ctx1 := ctxScale s.zoom s.zoom (ctxTranslate s.canvasOffset.x s.canvasOffset.y (ctxSave ctx0))
  let painted := renderObjects s.backgroundColor s.objects ctx1
  let ctx2 := selectionOverlay env s.tool s.selectedIndices painted.1 painted.2
  let ctx3 := selBoxOverlay s.tool s.isDrawing s.current ctx2
  let ctx4 := liveOverlay s.tool s.color s.backgroundColor s.isDrawing s.current ctx3
  let ctx5 := ctxRestore ctx4
  (painted.1, onCur (fun c => { c with globalAlpha := 1 }) ctx5)

/-- C7: Zoom-to-cursor invariant.  For every wheel-zoom event at screen point
`(mouseX, mouseY)`, the new offset is `p − worldPointUnderCursor × newZoom`
with `newZoom` clamped, so the screen→document mapping applied to the cursor
point after the zoom yields the same document point as before the zoom. -/
theorem zoom_to_cursor (s : State) (mouseX mouseY deltaY : ℚ) :
    screenToCanvas (handleWheel true false mouseX mouseY deltaY s) mouseX mouseY =
      screenToCanvas s mouseX mouseY := by
  have hnz : (max (1/5) (min 5 (s.zoom + (if 0 < deltaY then -(1/10) else 1/10))) : ℚ) ≠ 0 := by
    have h01 : (0:ℚ) < 1/5 := by norm_num
    exact ne_of_gt (lt_of_lt_of_le h01 (le_max_left _ _))
  simp only [handleWheel, screenToCanvas, if_true]
  refine Point.ext ?_ ?_ <;>
  · simp only []
    rw [sub_sub_cancel, mul_div_assoc, div_self hnz, mul_one]

/-- C2: History branch discard.  When `historyIndex < history.length − 1`,
committing a new snapshot truncates the history to the first
`historyIndex + 1` entries before appending, so afterwards the cursor points
at the last entry and `canRedo` is false. -/
theorem history_branch_discard (s : State) (newObjects : List DrawingObject)
    (h : s.historyIndex < s.history.length - 1) :
    (commit s newObjects).historyIndex = (commit s newObjects).history.length - 1 ∧
    ¬ ((commit s newObjects).historyIndex < (commit s newObjects).history.length - 1) ∧
    (commit s newObjects).history = s.history.take (s.historyIndex + 1) ++ [newObjects] := by
  have hlen : (s.history.take (s.historyIndex + 1)).length = s.historyIndex + 1 := by
    rw [List.length_take]; omega
  refine ⟨?_, ?_, rfl⟩ <;> simp [commit, createHistory, hlen]

/-- Concrete instance of C2: history `[[], [objA]]` with the cursor at 0
(one redoable snapshot); committing `[objA, objA]` discards it. -/
def objA : DrawingObject := .stroke ⟨[⟨1, 1⟩], "#000000", 2, .pen⟩

def objB : DrawingObject := .shape ⟨.line, ⟨0, 0⟩, ⟨4, 4⟩, "#ff0000", 3, .line⟩

def stateC2 : State :=
  { initState .pen "#000000" 2 "#ffffff" with history := [[], [objA]], historyIndex := 0 }

theorem history_branch_discard_witness :
    (commit stateC2 [objA, objA]).historyIndex =
      (commit stateC2 [objA, objA]).history.length - 1 ∧
    ¬ ((commit stateC2 [objA, objA]).historyIndex <
      (commit stateC2 [objA, objA]).history.length - 1) ∧
    (commit stateC2 [objA, objA]).history =
      stateC2.history.take (stateC2.historyIndex + 1) ++ [[objA, objA]] :=
  history_branch_discard stateC2 [objA, objA] (by decide)

/-- C3: Selection invalidation.  `undo`, `redo` and `clear` (when they act)
reset `selectedIndices` to the empty list, so no selected index can be out of
range for the replaced scene. -/
theorem selection_invalidation (s : State) :
    (0 < s.historyIndex →
      (undo s).selectedIndices = [] ∧
      ∀ i ∈ (undo s).selectedIndices, i < (undo s).objects.length) ∧
    (s.historyIndex < s.history.length - 1 →
      (redo s).selectedIndices = [] ∧
      ∀ i ∈ (redo s).selectedIndices, i < (redo s).objects.length) ∧
    (s.objects ≠ [] →
      (clear s).selectedIndices = [] ∧
      ∀ i ∈ (clear s).selectedIndices, i < (clear s).objects.length) := by
  refine ⟨fun h => ?_, fun h => ?_, fun h => ?_⟩ <;>
    simp [undo, redo, clear, commit, createHistory, h]

/-- Concrete instance of C3: a state where undo, redo and clear are all
enabled and a nonempty selection is present. -/
def stateC3 : State :=
  { initState .pen "#000000" 2 "#ffffff" with
    history := [[], [objA], [objA, objB]], historyIndex := 1,
    objects := [objA], selectedIndices := [0] }

theorem selection_invalidation_witness :
    (undo stateC3).selectedIndices = [] ∧
    (redo stateC3).selectedIndices = [] ∧
    (clear stateC3).selectedIndices = [] := by
  obtain ⟨h1, h2, h3⟩ := selection_invalidation stateC3
  exact ⟨(h1 (by decide)).1, (h2 (by decide)).1, (h3 (by decide)).1⟩

/-- C9: Idempotent clear.  On an empty scene `clear` changes nothing at all;
on a nonempty scene it empties the scene, clears the selection and appends
exactly one (empty) snapshot, advancing the cursor by one. -/
theorem clear_spec (s : State) :
    (s.objects = [] → clear s = s) ∧
    (s.objects ≠ [] →
      (clear s).objects = [] ∧
      (clear s).selectedIndices = [] ∧
      (clear s).history = s.history.take (s.historyIndex + 1) ++ [[]] ∧
      (clear s).historyIndex = s.historyIndex + 1) := by
  constructor
  · intro h; simp [clear, h]
  · intro h; simp [clear, commit, createHistory, h]

theorem clear_spec_witness :
    clear (initState .pen "#000000" 2 "#ffffff") = initState .pen "#000000" 2 "#ffffff" ∧
    (clear stateC3).objects = [] ∧
    (clear stateC3).historyIndex = stateC3.historyIndex + 1 := by
  refine ⟨(clear_spec _).1 rfl, ?_, ?_⟩
  · exact ((clear_spec stateC3).2 (by decide)).1
  · exact ((clear_spec stateC3).2 (by decide)).2.2.2

/-- A sequence of committed operations, each identified by the scene it
commits (the argument that `setObjects`/`createHistory` both receive). -/
def commitAll (s : State) (ops : List (List DrawingObject)) : State :=
  ops.foldl commit s

/-- Folding commits from a state satisfying the history invariant (cursor at
the last snapshot, last snapshot equal to the live scene) appends exactly the
committed scenes and re-establishes the invariant. -/
lemma commitAll_spec (ops : List (List DrawingObject)) :
    ∀ s : State, s.history.length = s.historyIndex + 1 →
      s.history.getD s.historyIndex [] = s.objects →
      (commitAll s ops).history = s.history ++ ops ∧
      (commitAll s ops).historyIndex = s.historyIndex + ops.length ∧
      (commitAll s ops).history.length = (commitAll s ops).historyIndex + 1 ∧
      (commitAll s ops).history.getD (commitAll s ops).historyIndex [] =
        (commitAll s ops).objects := by
  induction ops with
  | nil =>
    intro s hlen hcur
    exact ⟨by simp [commitAll], by simp [commitAll], by simp [commitAll, hlen], by
      simpa [commitAll] using hcur⟩
  | cons o rest ih =>
    intro s hlen hcur
    have hstep : commitAll s (o :: rest) = commitAll (commit s o) rest := by
      simp [commitAll]
    have htake : s.history.take (s.historyIndex + 1) = s.history := by
      rw [← hlen]; exact List.take_length s.history
    have hch : (commit s o).history = s.history ++ [o] := by
      simp [commit, createHistory, htake]
    have hci : (commit s o).historyIndex = s.historyIndex + 1 := by
      simp [commit, createHistory]
    have hcl : (commit s o).history.length = (commit s o).historyIndex + 1 := by
      rw [hch, hci, List.length_append, hlen]; rfl
    have hcc : (commit s o).history.getD (commit s o).historyIndex [] = (commit s o).objects := by
      rw [hch, hci, ← hlen]
      have : (s.history ++ [o]).getD s.history.length [] = o := by
        rw [List.getD_eq_getElem?_getD, List.getElem?_concat_length]; rfl
      rw [this]; simp [commit, createHistory]
    obtain ⟨r1, r2, r3, r4⟩ := ih (commit s o) hcl hcc
    rw [hstep]
    refine ⟨?_, ?_, r3, r4⟩
    · rw [r1, hch, List.append_assoc]; rfl
    · rw [r2, hci, List.length_cons]; omega

/-- Iterating `undo` k times (k within range) keeps the history, moves the
cursor back k steps and, when k is positive, loads the snapshot at the new
cursor. -/
lemma undo_iter (k : ℕ) :
    ∀ s : State, k ≤ s.historyIndex →
      (undo^[k] s).history = s.history ∧
      (undo^[k] s).historyIndex = s.historyIndex - k ∧
      (undo^[k] s).objects =
        (if k = 0 then s.objects else s.history.getD (s.historyIndex - k) []) := by
  induction k with
  | zero => intro s _; simp
  | succ n ih =>
    intro s hk
    have hpos : 0 < s.historyIndex := by omega
    have hu : undo s =
        { s with
          historyIndex := s.historyIndex - 1
          objects := s.history.getD (s.historyIndex - 1) []
          selectedIndices := [] } := by
      rw [undo]; simp [hpos]
    rw [Function.iterate_succ_apply, hu]
    obtain ⟨h1, h2, h3⟩ := ih
      { s with
        historyIndex := s.historyIndex - 1
        objects := s.history.getD (s.historyIndex - 1) []
        selectedIndices := [] } (by show n ≤ s.historyIndex - 1; omega)
    refine ⟨h1, ?_, ?_⟩
    · rw [h2]; show s.historyIndex - 1 - n = s.historyIndex - (n + 1); omega
    · rw [h3, if_neg (Nat.succ_ne_zero n)]
      rcases Nat.eq_zero_or_pos n with hn | hn
      · subst hn
        rw [if_pos rfl]
      · rw [if_neg (Nat.pos_iff_ne_zero.mp hn)]
        show s.history.getD (s.historyIndex - 1 - n) [] = s.history.getD (s.historyIndex - (n + 1)) []
        have harith : s.historyIndex - 1 - n = s.historyIndex - (n + 1) := by omega
        rw [harith]

/-- Iterating `redo` k times (k within range) keeps the history, moves the
cursor forward k steps and, when k is positive, loads the snapshot at the new
cursor. -/
lemma redo_iter (k : ℕ) :
    ∀ s : State, s.historyIndex + k ≤ s.history.length - 1 →
      (redo^[k] s).history = s.history ∧
      (redo^[k] s).historyIndex = s.historyIndex + k ∧
      (redo^[k] s).objects =
        (if k = 0 then s.objects else s.history.getD (s.historyIndex + k) []) := by
  induction k with
  | zero => intro s _; simp
  | succ n ih =>
    intro s hk
    have hlt : s.historyIndex < s.history.length - 1 := by omega
    have hr : redo s =
        { s with
          historyIndex := s.historyIndex + 1
          objects := s.history.getD (s.historyIndex + 1) []
          selectedIndices := [] } := by
      rw [redo]; simp [hlt]
    rw [Function.iterate_succ_apply, hr]
    obtain ⟨h1, h2, h3⟩ := ih
      { s with
        historyIndex := s.historyIndex + 1
        objects := s.history.getD (s.historyIndex + 1) []
        selectedIndices := [] }
      (by show s.historyIndex + 1 + n ≤ s.history.length - 1; omega)
    refine ⟨h1, ?_, ?_⟩
    · rw [h2]; show s.historyIndex + 1 + n = s.historyIndex + (n + 1); omega
    · rw [h3, if_neg (Nat.succ_ne_zero n)]
      rcases Nat.eq_zero_or_pos n with hn | hn
      · subst hn
        rw [if_pos rfl]
      · rw [if_neg (Nat.pos_iff_ne_zero.mp hn)]
        show s.history.getD (s.historyIndex + 1 + n) [] = s.history.getD (s.historyIndex + (n + 1)) []
        have harith : s.historyIndex + 1 + n = s.historyIndex + (n + 1) := by omega
        rw [harith]

/-- C1: Undo/redo inverse law.  Starting from the initial state
(`history = [[]]`, `historyIndex = 0`), after any sequence of N committed
operations, N undos bring the live scene back to the empty scene and N
subsequent redos restore the scene immediately after the N-th commit. -/
theorem undo_redo_inverse (tool : Tool) (color : String) (size : ℚ)
    (backgroundColor : String) (ops : List (List DrawingObject)) (N : ℕ)
    (hN : N = ops.length) :
    (undo^[N] (commitAll (initState tool color size backgroundColor) ops)).objects = [] ∧
    (redo^[N] (undo^[N] (commitAll (initState tool color size backgroundColor) ops))).objects =
      (commitAll (initState tool color size backgroundColor) ops).objects := by
  subst hN
  obtain ⟨hh, hi, hl, hc⟩ :=
    commitAll_spec ops (initState tool color size backgroundColor) (by simp [initState])
      (by simp [initState])
  set s := commitAll (initState tool color size backgroundColor) ops with hs
  have hh' : s.history = [] :: ops := by simpa [initState] using hh
  have hi' : s.historyIndex = ops.length := by simpa [initState] using hi
  obtain ⟨u1, u2, u3⟩ := undo_iter ops.length s (by omega)
  have hub : (undo^[ops.length] s).objects = [] := by
    rw [u3]
    rcases Nat.eq_zero_or_pos ops.length with hn | hn
    · have hops : ops = [] := List.length_eq_zero.mp hn
      subst hops
      simp only [List.length_nil, reduceIte]
      rw [← hc, hh', hi']; rfl
    · rw [if_neg (Nat.pos_iff_ne_zero.mp hn), hi', Nat.sub_self, hh']; rfl
  refine ⟨hub, ?_⟩
  obtain ⟨r1, r2, r3⟩ := redo_iter ops.length (undo^[ops.length] s)
    (by rw [u1, u2, hi', hh']; simp)
  rw [r3]
  rcases Nat.eq_zero_or_pos ops.length with hn | hn
  · have hops : ops = [] := List.length_eq_zero.mp hn
    subst hops
    simp only [List.length_nil, reduceIte]
    simp
  · rw [if_neg (Nat.pos_iff_ne_zero.mp hn), u1, u2, hi', Nat.sub_self, Nat.zero_add, ← hi', hc]

theorem undo_redo_inverse_witness :
    (undo^[2] (commitAll (initState .pen "#000000" 2 "#ffffff") [[objA], [objA, objB]])).objects
      = [] ∧
    (redo^[2] (undo^[2]
        (commitAll (initState .pen "#000000" 2 "#ffffff") [[objA], [objA, objB]]))).objects =
      (commitAll (initState .pen "#000000" 2 "#ffffff") [[objA], [objA, objB]]).objects :=
  undo_redo_inverse .pen "#000000" 2 "#ffffff" [[objA], [objA, objB]] 2 rfl

/-- Translation of one drawing object by `(dx, dy)`: every stroke point,
shape start/end and text position shifted by the same delta.  This is the
per-object effect of `moveSelectedObjects`. -/
def translateObject (dx dy : ℚ) : DrawingObject → DrawingObject
  | .stroke st => .stroke { st with points := st.points.map fun p => ⟨p.x + dx, p.y + dy⟩ }
  | .shape sh => .shape { sh with
      start := ⟨sh.start.x + dx, sh.start.y + dy⟩,
      endP := ⟨sh.endP.x + dx, sh.endP.y + dy⟩ }
  | .text t => .text { t with position := ⟨t.position.x + dx, t.position.y + dy⟩ }

/-- Well-formedness of an object as a drag participant: a stroke has at least
one point (so its reference point is its real first point, not the JS-crash
placeholder). -/
def wfObj : DrawingObject → Prop
  | .stroke st => st.points ≠ []
  | _ => True

instance (o : DrawingObject) : Decidable (wfObj o) := by
  cases o with
  | stroke st => exact decidable_of_iff (st.points ≠ []) (by simp [wfObj])
  | shape sh => exact .isTrue (by simp [wfObj])
  | text t => exact .isTrue (by simp [wfObj])

lemma objPosition_translate (dx dy : ℚ) (o : DrawingObject) (h : wfObj o) :
    objPosition (translateObject dx dy o) =
      ⟨(objPosition o).x + dx, (objPosition o).y + dy⟩ := by
  cases o with
  | stroke st =>
    rcases hp : st.points with _ | ⟨p, t⟩
    · exact absurd hp h
    · simp [translateObject, objPosition, hp]
  | shape sh => simp [translateObject, objPosition]
  | text t => simp [translateObject, objPosition]

/-- Generic lemma about a left fold over a duplicate-free index list whose
step looks an index up and, when present, replaces it with `F` of the looked
up element: indices in the list end up mapped through `F`, all other
positions are untouched. -/
lemma foldl_lookup_set (F : DrawingObject → DrawingObject)
    (step : List DrawingObject → ℕ → List DrawingObject)
    (hstep : ∀ objs idx, step objs idx =
      match objs[idx]? with
      | none => objs
      | some o => objs.set idx (F o)) :
    ∀ (l : List ℕ) (objs : List DrawingObject), l.Nodup →
      (∀ j, j ∉ l → (l.foldl step objs)[j]? = objs[j]?) ∧
      (∀ i ∈ l, (l.foldl step objs)[i]? = (objs[i]?).map F) := by
  intro l
  induction l with
  | nil => intro objs _; simp
  | cons a t ih =>
    intro objs hnd
    rw [List.nodup_cons] at hnd
    obtain ⟨ha, ht⟩ := hnd
    rw [List.foldl_cons]
    obtain ⟨ih1, ih2⟩ := ih (step objs a) ht
    have hstep_ne : ∀ j, j ≠ a → (step objs a)[j]? = objs[j]? := by
      intro j hj
      rw [hstep]
      cases h : objs[a]? with
      | none => rfl
      | some o => rw [List.getElem?_set_ne (Ne.symm hj)]
    have hstep_a : (step objs a)[a]? = (objs[a]?).map F := by
      rw [hstep]
      cases h : objs[a]? with
      | none => simp [h]
      | some o =>
        have ha' : a < objs.length := by
          by_contra hlen
          rw [List.getElem?_eq_none (by omega)] at h
          exact Option.noConfusion h
        rw [List.getElem?_set_self ha']
        rfl
    constructor
    · intro j hj
      rw [List.mem_cons, not_or] at hj
      rw [ih1 j hj.2, hstep_ne j hj.1]
    · intro i hi
      rcases List.mem_cons.mp hi with rfl | hit
      · rw [ih1 i ha, hstep_a]

      · rw [ih2 i hit]
        rw [hstep_ne i (fun h => ha (h ▸ hit))]

/-- The fold step of `moveSelectedObjects` is the generic lookup-and-set step
for `translateObject`. -/
lemma moveStep_eq (dx dy : ℚ) :
    ∀ (objs : List DrawingObject) (idx : ℕ),
      (fun (objs : List DrawingObject) (index : ℕ) =>
        match objs[index]? with
        | none => objs
        | some (.stroke st) =>
          objs.set index (.stroke { st with
            points := st.points.map fun p => ⟨p.x + dx, p.y + dy⟩ })
        | some (.shape sh) =>
          objs.set index (.shape { sh with
            start := ⟨sh.start.x + dx, sh.start.y + dy⟩,
            endP := ⟨sh.endP.x + dx, sh.endP.y + dy⟩ })
        | some (.text t) =>
          objs.set index (.text { t with
            position := ⟨t.position.x + dx, t.position.y + dy⟩ })) objs idx =
      match objs[idx]? with
      | none => objs
      | some o => objs.set idx (translateObject dx dy o) := by
  intro objs idx
  cases h : objs[idx]? with
  | none => simp [h]
  | some o => cases o <;> simp [h, translateObject]

/-- `moveSelectedObjects` over a duplicate-free selection translates exactly
the selected objects and leaves every other position untouched. -/
lemma moveSelectedObjects_lookup (dx dy : ℚ) (s : State)
    (hnd : s.selectedIndices.Nodup) :
    (∀ i ∈ s.selectedIndices,
      (moveSelectedObjects dx dy s).objects[i]? =
        (s.objects[i]?).map (translateObject dx dy)) ∧
    (∀ j, j ∉ s.selectedIndices →
      (moveSelectedObjects dx dy s).objects[j]? = s.objects[j]?) := by
  obtain ⟨h1, h2⟩ := foldl_lookup_set (translateObject dx dy) _ (moveStep_eq dx dy)
    s.selectedIndices s.objects hnd
  exact ⟨fun i hi => h2 i hi, fun j hj => h1 j hj⟩

/-- C5: Group move rigidity.  During a drag over a selection of two or more
objects, a pointer-move translates every selected object by the same
`(dx, dy)` delta (the code's pointer-position minus lead-object reference
point minus captured offset), so the relative offsets between the selected
objects' reference points are exactly preserved. -/
theorem group_move_rigidity (s : State) (screenX screenY : ℚ) (i0 : ℕ)
    (rest : List ℕ) (d : Point)
    (hsel : s.selectedIndices = i0 :: rest)
    (hnd : s.selectedIndices.Nodup)
    (_hlen : 2 ≤ s.selectedIndices.length)
    (hdrag : s.isDragging = true)
    (hoff : s.dragOffset = some d)
    (hpan : s.isPanning = false)
    (hres : s.isResizing = false)
    (hwf : ∀ i ∈ s.selectedIndices, wfObj (s.objects.getD i defaultObject)) :
    ∃ dx dy : ℚ,
      dx = (screenToCanvas s screenX screenY).x -
        (objPosition (s.objects.getD i0 defaultObject)).x - d.x ∧
      dy = (screenToCanvas s screenX screenY).y -
        (objPosition (s.objects.getD i0 defaultObject)).y - d.y ∧
      (∀ i ∈ s.selectedIndices,
        (onDrawing screenX screenY s).objects[i]? =
          (s.objects[i]?).map (translateObject dx dy)) ∧
      (∀ i ∈ s.selectedIndices, ∀ j ∈ s.selectedIndices,
        ∀ oi oj oi' oj' : DrawingObject,
        s.objects[i]? = some oi → s.objects[j]? = some oj →
        (onDrawing screenX screenY s).objects[i]? = some oi' →
        (onDrawing screenX screenY s).objects[j]? = some oj' →
        (objPosition oi').x - (objPosition oj').x =
          (objPosition oi).x - (objPosition oj).x ∧
        (objPosition oi').y - (objPosition oj').y =
          (objPosition oi).y - (objPosition oj).y) := by
  have hmove : onDrawing screenX screenY s =
      moveSelectedObjects
        ((screenToCanvas s screenX screenY).x -
          (objPosition (s.objects.getD i0 defaultObject)).x - d.x)
        ((screenToCanvas s screenX screenY).y -
          (objPosition (s.objects.getD i0 defaultObject)).y - d.y) s := by
    rw [onDrawing]
    simp [hpan, hres, hdrag, hoff, hsel, screenToCanvas]
  refine ⟨_, _, rfl, rfl, ?_, ?_⟩
  · intro i hi
    rw [hmove]
    exact (moveSelectedObjects_lookup _ _ s hnd).1 i hi
  · intro i hi j hj oi oj oi' oj' hoi hoj hoi' hoj'
    rw [hmove] at hoi' hoj'
    have hml := moveSelectedObjects_lookup
      ((screenToCanvas s screenX screenY).x -
        (objPosition (s.objects.getD i0 defaultObject)).x - d.x)
      ((screenToCanvas s screenX screenY).y -
        (objPosition (s.objects.getD i0 defaultObject)).y - d.y) s hnd
    have hmi := hml.1 i hi
    have hmj := hml.1 j hj
    rw [hoi, Option.map_some'] at hmi
    rw [hoj, Option.map_some'] at hmj
    rw [hoi'] at hmi
    rw [hoj'] at hmj
    have hwi : wfObj oi := by
      have := hwf i hi
      rwa [List.getD_eq_getElem?_getD, hoi, Option.getD_some] at this
    have hwj : wfObj oj := by
      have := hwf j hj
      rwa [List.getD_eq_getElem?_getD, hoj, Option.getD_some] at this
    have ei : oi' = translateObject _ _ oi := Option.some.inj hmi
    have ej : oj' = translateObject _ _ oj := Option.some.inj hmj
    rw [ei, ej, objPosition_translate _ _ _ hwi, objPosition_translate _ _ _ hwj]
    constructor <;> ring

/-- Concrete drag session for C5: two selected objects, offsets preserved. -/
def stateC5 : State :=
  { initState .select "#000000" 2 "#ffffff" with
    objects := [objA, objB]
    selectedIndices := [0, 1]
    isDragging := true
    dragOffset := some ⟨0, 0⟩ }

theorem group_move_rigidity_witness :
    ∃ dx dy : ℚ,
      dx = (screenToCanvas stateC5 5 7).x -
        (objPosition (stateC5.objects.getD 0 defaultObject)).x - (0 : ℚ) ∧
      dy = (screenToCanvas stateC5 5 7).y -
        (objPosition (stateC5.objects.getD 0 defaultObject)).y - (0 : ℚ) ∧
      (∀ i ∈ stateC5.selectedIndices,
        (onDrawing 5 7 stateC5).objects[i]? =
          (stateC5.objects[i]?).map (translateObject dx dy)) ∧
      (∀ i ∈ stateC5.selectedIndices, ∀ j ∈ stateC5.selectedIndices,
        ∀ oi oj oi' oj' : DrawingObject,
        stateC5.objects[i]? = some oi → stateC5.objects[j]? = some oj →
        (onDrawing 5 7 stateC5).objects[i]? = some oi' →
        (onDrawing 5 7 stateC5).objects[j]? = some oj' →
        (objPosition oi').x - (objPosition oj').x =
          (objPosition oi).x - (objPosition oj).x ∧
        (objPosition oi').y - (objPosition oj').y =
          (objPosition oi).y - (objPosition oj).y) :=
  group_move_rigidity stateC5 5 7 0 [1] ⟨0, 0⟩ rfl (by decide) (by decide)
    rfl rfl rfl rfl (by decide)

/-- Generic lemma for the group-resize fold: folding `set`s of `F` over the
zip of captured data with a duplicate-free, in-range index list puts
`F (captured k)` at index `idxs[k]` and leaves other positions untouched. -/
lemma foldl_zip_set_lookup (F : DrawingObject → DrawingObject) :
    ∀ (ds : List DrawingObject) (idxs : List ℕ) (objs : List DrawingObject),
      idxs.Nodup → (∀ i ∈ idxs, i < objs.length) → ds.length = idxs.length →
      (∀ j, j ∉ idxs →
        ((ds.zip idxs).foldl (fun o p => o.set p.2 (F p.1)) objs)[j]? = objs[j]?) ∧
      (∀ k, k < idxs.length →
        ((ds.zip idxs).foldl (fun o p => o.set p.2 (F p.1)) objs)[idxs.getD k 0]? =
          some (F (ds.getD k defaultObject))) := by
  intro ds
  induction ds with
  | nil =>
    intro idxs objs _ _ hlen
    have : idxs = [] := List.length_eq_zero.mp (hlen.symm ▸ rfl)
    subst this
    simp
  | cons d ds ih =>
    intro idxs objs hnd hval hlen
    rcases idxs with _ | ⟨a, t⟩
    · exact absurd hlen (by simp)
    rw [List.nodup_cons] at hnd
    obtain ⟨ha, ht⟩ := hnd
    have hlen' : ds.length = t.length := by
      simpa using hlen
    have haval : a < objs.length := hval a (List.mem_cons_self a t)
    have htval : ∀ i ∈ t, i < (objs.set a (F d)).length := by
      intro i hi
      rw [List.length_set]
      exact hval i (List.mem_cons_of_mem a hi)
    have hzip : (d :: ds).zip (a :: t) = (d, a) :: ds.zip t := rfl
    rw [hzip, List.foldl_cons]
    obtain ⟨ih1, ih2⟩ := ih t (objs.set a (F d)) ht htval hlen'
    constructor
    · intro j hj
      rw [List.mem_cons, not_or] at hj
      rw [ih1 j hj.2, List.getElem?_set_ne (Ne.symm hj.1)]
    · intro k hk
      rcases k with _ | k
      · have hgetD : (a :: t).getD 0 0 = a := rfl
        rw [hgetD, ih1 a ha, List.getElem?_set_self haval]
        rfl
      · have hgetD : (a :: t).getD (k + 1) 0 = t.getD k 0 := rfl
        have hgetD' : (d :: ds).getD (k + 1) defaultObject = ds.getD k defaultObject := rfl
        rw [hgetD, hgetD']
        exact ih2 k (by simpa using hk)

/-- The new bounding box computed by the single-selection branch of
`performResize` from the grabbed handle and the pointer delta (the source's
per-handle if-chain with `minSize = 10`); definitionally equal to the match
inlined in `performResize`. -/
def singleResizeBounds (handle : Handle) (initialBounds : Bounds) (deltaX deltaY : ℚ) : Bounds :=
  match handle with
  | .topLeft =>
    ⟨min (initialBounds.x + deltaX) (initialBounds.x + initialBounds.width - 10),
     min (initialBounds.y + deltaY) (initialBounds.y + initialBounds.height - 10),
     max 10 (initialBounds.width - deltaX),
     max 10 (initialBounds.height - deltaY)⟩
  | .topRight =>
    ⟨initialBounds.x,
     min (initialBounds.y + deltaY) (initialBounds.y + initialBounds.height - 10),
     max 10 (initialBounds.width + deltaX),
     max 10 (initialBounds.height - deltaY)⟩
  | .bottomLeft =>
    ⟨min (initialBounds.x + deltaX) (initialBounds.x + initialBounds.width - 10),
     initialBounds.y,
     max 10 (initialBounds.width - deltaX),
     max 10 (initialBounds.height + deltaY)⟩
  | .bottomRight =>
    ⟨initialBounds.x, initialBounds.y,
     max 10 (initialBounds.width + deltaX),
     max 10 (initialBounds.height + deltaY)⟩

/-- C4: Resize algorithm.  For every active resize session with non-degenerate
initial bounds and captured pre-resize copies of the selected objects, the
applied scale factors lie in `[0.2, 5]` (= `[1/5, 5]`) and every selected
object in the result is `resizeObject` of its *captured* pre-resize copy,
scaled about the corner of the initial bounds diagonally opposite the grabbed
handle — never computed from the live (already-mutated) objects. -/
theorem resize_scale_clamped (s : State) (x y : ℚ) (handle : Handle)
    (ib mp : _)
    (hres : s.isResizing = true)
    (hh : s.resizeHandle = some handle)
    (hib : s.initialBounds = some ib)
    (hmp : s.initialMousePos = some mp)
    (hw : 0 < ib.width) (hhgt : 0 < ib.height)
    (hne : s.selectedIndices ≠ [])
    (hnd : s.selectedIndices.Nodup)
    (hlen : s.resizeStartData.length = s.selectedIndices.length)
    (hvalid : ∀ i ∈ s.selectedIndices, i < s.objects.length) :
    ∃ scaleX scaleY : ℚ, ∃ nb : Bounds,
      1/5 ≤ scaleX ∧ scaleX ≤ 5 ∧ 1/5 ≤ scaleY ∧ scaleY ≤ 5 ∧
      ∀ k, k < s.selectedIndices.length →
        (performResize x y s).objects[s.selectedIndices.getD k 0]? =
          some (resizeObject (s.resizeStartData.getD k defaultObject) nb ib
            scaleX scaleY (oppositeCorner handle ib)) := by
  have hguard : ¬ (¬ (s.isResizing = true) ∨ s.selectedIndices = []) := by
    simp [hres, hne]
  rw [performResize, if_neg hguard, hh, hib, hmp]
  dsimp only
  by_cases hgt : 1 < s.selectedIndices.length
  · rw [if_pos hgt]
    refine ⟨max (1/5) (min 5 (max 10 |x - (oppositeCorner handle ib).x| / ib.width)),
      max (1/5) (min 5 (max 10 |y - (oppositeCorner handle ib).y| / ib.height)),
      ⟨min (oppositeCorner handle ib).x x, min (oppositeCorner handle ib).y y,
        max 10 |x - (oppositeCorner handle ib).x|, max 10 |y - (oppositeCorner handle ib).y|⟩,
      le_max_left _ _, max_le (by norm_num) (min_le_left _ _),
      le_max_left _ _, max_le (by norm_num) (min_le_left _ _), ?_⟩
    intro k hk
    obtain ⟨_, h2⟩ := foldl_zip_set_lookup
      (fun o => resizeObject o
        ⟨min (oppositeCorner handle ib).x x, min (oppositeCorner handle ib).y y,
          max 10 |x - (oppositeCorner handle ib).x|, max 10 |y - (oppositeCorner handle ib).y|⟩
        ib
        (max (1/5) (min 5 (max 10 |x - (oppositeCorner handle ib).x| / ib.width)))
        (max (1/5) (min 5 (max 10 |y - (oppositeCorner handle ib).y| / ib.height)))
        (oppositeCorner handle ib))
      s.resizeStartData s.selectedIndices s.objects hnd hvalid hlen
    exact h2 k hk
  · rw [if_neg hgt]
    have hone : s.selectedIndices.length = 1 := by
      have : 0 < s.selectedIndices.length := List.length_pos.mpr hne
      omega
    rw [if_pos ⟨hone, hlen.trans hone⟩]
    obtain ⟨i0, hsel⟩ : ∃ i0, s.selectedIndices = [i0] :=
      List.length_eq_one.mp hone
    obtain ⟨o0, hsd⟩ : ∃ o0, s.resizeStartData = [o0] :=
      List.length_eq_one.mp (hlen.trans hone)
    rw [hsd]
    dsimp only
    rw [if_pos hw, if_pos hhgt]
    refine ⟨max (1/5) (min 5 ((singleResizeBounds handle ib (x - mp.x) (y - mp.y)).width / ib.width)),
      max (1/5) (min 5 ((singleResizeBounds handle ib (x - mp.x) (y - mp.y)).height / ib.height)),
      singleResizeBounds handle ib (x - mp.x) (y - mp.y),
      le_max_left _ _, max_le (by norm_num) (min_le_left _ _),
      le_max_left _ _, max_le (by norm_num) (min_le_left _ _), ?_⟩
    intro k hk
    have hk0 : k = 0 := by rw [hone] at hk; omega
    subst hk0
    have hgetD : s.selectedIndices.getD 0 0 = i0 := by rw [hsel]; rfl
    have hhead : s.selectedIndices.headD 0 = i0 := by rw [hsel]; rfl
    have hval0 : i0 < s.objects.length :=
      hvalid i0 (by rw [hsel]; exact List.mem_singleton_self i0)
    rw [hgetD, hhead, List.getElem?_set_self hval0]
    rfl

/-- Concrete resize session for C4: both objects selected, bottom-right
handle, initial bounds 10×10, pointer dragged to (20, 20). -/
def stateC4 : State :=
  { initState .select "#000000" 2 "#ffffff" with
    objects := [objA, objB]
    selectedIndices := [0, 1]
    isResizing := true
    resizeHandle := some .bottomRight
    initialBounds := some ⟨0, 0, 10, 10⟩
    initialMousePos := some ⟨10, 10⟩
    resizeStartData := [objA, objB] }

theorem resize_scale_clamped_witness :
    ∃ scaleX scaleY : ℚ, ∃ nb : Bounds,
      1/5 ≤ scaleX ∧ scaleX ≤ 5 ∧ 1/5 ≤ scaleY ∧ scaleY ≤ 5 ∧
      ∀ k, k < stateC4.selectedIndices.length →
        (performResize 20 20 stateC4).objects[stateC4.selectedIndices.getD k 0]? =
          some (resizeObject (stateC4.resizeStartData.getD k defaultObject) nb
            ⟨0, 0, 10, 10⟩ scaleX scaleY (oppositeCorner .bottomRight ⟨0, 0, 10, 10⟩)) :=
  resize_scale_clamped stateC4 20 20 .bottomRight ⟨0, 0, 10, 10⟩ ⟨10, 10⟩ rfl rfl rfl rfl
    (by decide) (by decide) (by decide) (by decide) rfl (by decide)

/-- The per-object effect of one render frame on the scene: eraser strokes
get their color overwritten with the background color, everything else is
untouched. -/
def recolorEraser (backgroundColor : String) : DrawingObject → DrawingObject
  | .stroke st =>
    .stroke (if st.tool = .eraser then { st with color := backgroundColor } else st)
  | .shape sh => .shape sh
  | .text t => .text t

lemma renderObjects_fst (backgroundColor : String) :
    ∀ (l : List DrawingObject) (ctx : Ctx),
      (renderObjects backgroundColor l ctx).1 = l.map (recolorEraser backgroundColor) := by
  intro l
  induction l with
  | nil => intro ctx; rfl
  | cons o rest ih =>
    intro ctx
    cases o with
    | stroke st => simp [renderObjects, recolorEraser, ih]
    | shape sh => simp [renderObjects, recolorEraser, ih]
    | text t => simp [renderObjects, recolorEraser, ih]

lemma onCur_stack (f : CtxState → CtxState) (c : Ctx) : (onCur f c).stack = c.stack := rfl

lemma drawStroke_stack (st : Stroke) (c : Ctx) : (drawStroke st c).stack = c.stack := rfl

lemma drawShape_stack (sh : Shape) (c : Ctx) : (drawShape sh c).stack = c.stack := rfl

lemma drawText_stack (t : TextObject) (c : Ctx) : (drawText t c).stack = c.stack := rfl

lemma renderObjects_stack (backgroundColor : String) :
    ∀ (l : List DrawingObject) (ctx : Ctx),
      (renderObjects backgroundColor l ctx).2.stack = ctx.stack := by
  intro l
  induction l with
  | nil => intro ctx; rfl
  | cons o rest ih =>
    intro ctx
    cases o with
    | stroke st => rw [renderObjects]; dsimp only; rw [ih, drawStroke_stack]
    | shape sh => rw [renderObjects]; dsimp only; rw [ih, drawShape_stack]
    | text t => rw [renderObjects]; dsimp only; rw [ih, drawText_stack]

lemma selectionOverlay_stack (env : Env) (tool : Tool) (sel : List ℕ)
    (objs : List DrawingObject) (ctx : Ctx) :
    (selectionOverlay env tool sel objs ctx).stack = ctx.stack := by
  rw [selectionOverlay]
  split
  · split <;> rfl
  · rfl

lemma selBoxOverlay_stack (tool : Tool) (isDrawing : Bool) (current : Option Current)
    (ctx : Ctx) : (selBoxOverlay tool isDrawing current ctx).stack = ctx.stack := by
  rw [selBoxOverlay]
  split <;> rfl

lemma liveOverlay_stack (tool : Tool) (color backgroundColor : String)
    (isDrawing : Bool) (current : Option Current) (ctx : Ctx) :
    (liveOverlay tool color backgroundColor isDrawing current ctx).stack = ctx.stack := by
  rw [liveOverlay]
  split
  · cases current with
    | none => rfl
    | some c => cases c <;> rfl
  · rfl

/-- C6 (amended): one render frame leaves the drawing surface in its initial
state except for `globalAlpha`, which is reset to 1.0 (every other style
change happens between `save` and `restore`); and its effect on the scene is
exactly `recolorEraser`: every eraser stroke's color field is overwritten
with the current background color, all other objects are unchanged. -/
theorem render_frame_effects (env : Env) (s : State) (ctx0 : Ctx) :
    (render env s ctx0).1 = s.objects.map (recolorEraser s.backgroundColor) ∧
    (render env s ctx0).2 = ⟨{ ctx0.cur with globalAlpha := 1 }, ctx0.stack⟩ := by
  constructor
  · rw [render]
    dsimp only
    rw [renderObjects_fst]
  · rw [render]
    dsimp only
    have hstack :
        (liveOverlay s.tool s.color s.backgroundColor s.isDrawing s.current
          (selBoxOverlay s.tool s.isDrawing s.current
            (selectionOverlay env s.tool s.selectedIndices
              (renderObjects s.backgroundColor s.objects
                (ctxScale s.zoom s.zoom
                  (ctxTranslate s.canvasOffset.x s.canvasOffset.y (ctxSave ctx0)))).1
              (renderObjects s.backgroundColor s.objects
                (ctxScale s.zoom s.zoom
                  (ctxTranslate s.canvasOffset.x s.canvasOffset.y (ctxSave ctx0)))).2))).stack =
        ctx0.cur :: ctx0.stack := by
      rw [liveOverlay_stack, selBoxOverlay_stack, selectionOverlay_stack,
        renderObjects_stack]
      rfl
    rw [ctxRestore]
    rw [hstack]
    rfl

/-- Concrete scene for C6: a single eraser stroke drawn in black on a white
background. -/
def envTrivial : Env := ⟨fun _ _ _ => 0, fun _ => 0⟩

def ctxInit : Ctx :=
  ⟨⟨"#000000", "#000000", 1, 1, [], "butt", "miter", "10px sans-serif", 0, 0, 1, 1⟩, []⟩

def stateC6 : State :=
  { initState .pen "#000000" 2 "#ffffff" with
    objects := [.stroke ⟨[⟨0, 0⟩], "#000000", 2, .eraser⟩] }

/-- C6 counterexample: rendering does NOT leave the scene's DrawingObjects
unchanged — the eraser stroke's color field is mutated to the background
color by the frame. -/
theorem render_mutates_scene :
    (render envTrivial stateC6 ctxInit).1 ≠ stateC6.objects := by decide

/-- The union of two axis-aligned boxes (min of mins, max of maxes), in the
`{x, y, width, height}` representation used by the bounds utilities. -/
def joinBounds (b1 b2 : Bounds) : Bounds :=
  ⟨min b1.x b2.x, min b1.y b2.y,
   max (b1.x + b1.width) (b2.x + b2.width) - min b1.x b2.x,
   max (b1.y + b1.height) (b2.y + b2.height) - min b1.y b2.y⟩

lemma groupStep_fold (env : Env) (objects : List DrawingObject) :
    ∀ (l : List ℕ), (∀ i ∈ l, i < objects.length) → ∀ b : Bounds,
      l.foldl (groupStep env objects) (some (b.x, b.y, b.x + b.width, b.y + b.height)) =
        some ((l.foldl (fun acc j => joinBounds acc (objectBounds env (objects.getD j defaultObject))) b).x,
              (l.foldl (fun acc j => joinBounds acc (objectBounds env (objects.getD j defaultObject))) b).y,
              (l.foldl (fun acc j => joinBounds acc (objectBounds env (objects.getD j defaultObject))) b).x +
                (l.foldl (fun acc j => joinBounds acc (objectBounds env (objects.getD j defaultObject))) b).width,
              (l.foldl (fun acc j => joinBounds acc (objectBounds env (objects.getD j defaultObject))) b).y +
                (l.foldl (fun acc j => joinBounds acc (objectBounds env (objects.getD j defaultObject))) b).height) := by
  intro l
  induction l with
  | nil => intro _ b; rfl
  | cons j t ih =>
    intro hval b
    have hj : j < objects.length := hval j (List.mem_cons_self j t)
    have ho : objects[j]? = some (objects.get ⟨j, hj⟩) := by
      rw [List.getElem?_eq_getElem hj]; rfl
    have hgd : objects.getD j defaultObject = objects.get ⟨j, hj⟩ := by
      rw [List.getD_eq_getElem?_getD, ho, Option.getD_some]
    rw [List.foldl_cons, List.foldl_cons]
    have hstep : groupStep env objects
        (some (b.x, b.y, b.x + b.width, b.y + b.height)) j =
        some ((joinBounds b (objectBounds env (objects.get ⟨j, hj⟩))).x,
              (joinBounds b (objectBounds env (objects.get ⟨j, hj⟩))).y,
              (joinBounds b (objectBounds env (objects.get ⟨j, hj⟩))).x +
                (joinBounds b (objectBounds env (objects.get ⟨j, hj⟩))).width,
              (joinBounds b (objectBounds env (objects.get ⟨j, hj⟩))).y +
                (joinBounds b (objectBounds env (objects.get ⟨j, hj⟩))).height) := by
      rw [groupStep, ho]
      dsimp only [joinBounds]
      simp only [Prod.mk.injEq, Option.some.injEq]
      exact ⟨trivial, trivial, by ring, by ring⟩
    rw [hstep, hgd, ih (fun i hi => hval i (List.mem_cons_of_mem j hi))]

/-- C8 (amended): for in-range index sets, the group bounding box is the
union (min of mins, max of maxes) of the members' bounding boxes, and the
result is `none` exactly when the index set is empty — a nonempty set of
members always yields a box, even when every member is degenerate
(zero-area). -/
theorem group_bounds_union (env : Env) (objects : List DrawingObject) (indices : List ℕ)
    (hvalid : ∀ i ∈ indices, i < objects.length) :
    (getGroupBounds env objects indices = none ↔ indices = []) ∧
    (∀ i rest, indices = i :: rest →
      getGroupBounds env objects indices =
        some (rest.foldl
          (fun acc j => joinBounds acc (objectBounds env (objects.getD j defaultObject)))
          (objectBounds env (objects.getD i defaultObject)))) := by
  rcases indices with _ | ⟨i, rest⟩
  · exact ⟨by simp [getGroupBounds], by intro i rest h; cases h⟩
  · have hi : i < objects.length := hvalid i (List.mem_cons_self i rest)
    have ho : objects[i]? = some (objects.get ⟨i, hi⟩) := by
      rw [List.getElem?_eq_getElem hi]; rfl
    have hgd : objects.getD i defaultObject = objects.get ⟨i, hi⟩ := by
      rw [List.getD_eq_getElem?_getD, ho, Option.getD_some]
    have hmain : getGroupBounds env objects (i :: rest) =
        some (rest.foldl
          (fun acc j => joinBounds acc (objectBounds env (objects.getD j defaultObject)))
          (objectBounds env (objects.getD i defaultObject))) := by
      rw [getGroupBounds, if_neg (by simp)]
      rw [List.foldl_cons]
      have hfirst : groupStep env objects none i =
          some ((objectBounds env (objects.get ⟨i, hi⟩)).x,
                (objectBounds env (objects.get ⟨i, hi⟩)).y,
                (objectBounds env (objects.get ⟨i, hi⟩)).x +
                  (objectBounds env (objects.get ⟨i, hi⟩)).width,
                (objectBounds env (objects.get ⟨i, hi⟩)).y +
                  (objectBounds env (objects.get ⟨i, hi⟩)).height) := by
        rw [groupStep, ho]
      rw [hfirst,
        groupStep_fold env objects rest (fun j hj => hvalid j (List.mem_cons_of_mem i hj)),
        hgd]
      dsimp only
      apply congrArg some
      apply Bounds.ext
      · rfl
      · rfl
      · show _ + _ - _ = _
        ring
      · show _ + _ - _ = _
        ring
    refine ⟨?_, ?_⟩
    · rw [hmain]
      constructor
      · intro h; cases h
      · intro h; cases h
    · intro i' rest' h
      injection h with h1 h2
      subst h1
      subst h2
      exact hmain

/-- C8 counterexample: a one-element index set whose only member has a
zero-area (degenerate) bounding box still yields a box, not "no bounds" —
refuting the claim that the result is null when all members are
degenerate. -/
theorem group_bounds_degenerate_not_none :
    (objectBounds envTrivial (.stroke ⟨[⟨3, 4⟩], "#000000", 2, .pen⟩)).width = 0 ∧
    (objectBounds envTrivial (.stroke ⟨[⟨3, 4⟩], "#000000", 2, .pen⟩)).height = 0 ∧
    getGroupBounds envTrivial [.stroke ⟨[⟨3, 4⟩], "#000000", 2, .pen⟩] [0] =
      some ⟨3, 4, 0, 0⟩ := by
  refine ⟨?_, ?_, ?_⟩ <;>
    simp [objectBounds, getStrokeBounds, getGroupBounds, groupStep]

theorem group_bounds_union_witness :
    getGroupBounds envTrivial [.stroke ⟨[⟨3, 4⟩], "#000000", 2, .pen⟩] [0] =
      some (objectBounds envTrivial
        ((List.getD [.stroke ⟨[⟨3, 4⟩], "#000000", 2, .pen⟩] 0 defaultObject))) := by
  have h := (group_bounds_union envTrivial
    [.stroke ⟨[⟨3, 4⟩], "#000000", 2, .pen⟩] [0] (by decide)).2 0 [] rfl
  simpa using h

/-- "The pointer is not over a usable resize handle of this (optional)
bounding box": either there is no box, or the box is degenerate, or no corner
handle is hit.  This is the negation of the guard under which the select-tool
pointer-down enters a resize session. -/
def noHandleHit (x y : ℚ) : Option Bounds → Prop
  | some b => ¬ (0 < b.width ∧ 0 < b.height ∧ (getResizeHandle x y b).isSome = true)
  | none => True

instance (x y : ℚ) (ob : Option Bounds) : Decidable (noHandleHit x y ob) := by
  cases ob with
  | none => exact .isTrue trivial
  | some b =>
    exact decidable_of_iff
      (¬ (0 < b.width ∧ 0 < b.height ∧ (getResizeHandle x y b).isSome = true))
      (by simp [noHandleHit])

/-- C10: shift-click drag guard.  With the select tool, a shift-held
pointer-down on an object (no resize handle hit) behaves as follows.  If the
pre-click selection is empty, the clicked index becomes the selection but no
drag session starts (the drag branch reads the pre-click selection), and the
immediately following pointer-moves change nothing at all.  If the pre-click
selection is nonempty, the index is toggled in/out of the selection and a
drag session starts whose offset is captured relative to the *first
previously-selected* object, not the clicked one. -/
theorem shift_click_selection (env : Env) (s : State) (screenX screenY : ℚ)
    (ci : ℕ) (x y : ℚ)
    (hx : x = (screenToCanvas s screenX screenY).x)
    (hy : y = (screenToCanvas s screenX screenY).y)
    (htool : s.tool = .select)
    (hclick : getPosition env s.objects x y = some ci) :
    (s.selectedIndices = [] → s.isDrawing = false → s.isDragging = false →
      s.isPanning = false → s.isResizing = false →
      (onStartDrawing screenX screenY true env s).selectedIndices = [ci] ∧
      (onStartDrawing screenX screenY true env s).isDragging = false ∧
      (onStartDrawing screenX screenY true env s).dragOffset = s.dragOffset ∧
      (onStartDrawing screenX screenY true env s).objects = s.objects ∧
      (∀ mx my : ℚ, onDrawing mx my (onStartDrawing screenX screenY true env s) =
        onStartDrawing screenX screenY true env s)) ∧
    (∀ i0 rest, s.selectedIndices = i0 :: rest →
      noHandleHit x y (getGroupBounds env s.objects s.selectedIndices) →
      (rest = [] → noHandleHit x y (some (objectBounds env (s.objects.getD i0 defaultObject)))) →
      (onStartDrawing screenX screenY true env s).isDragging = true ∧
      (onStartDrawing screenX screenY true env s).dragOffset =
        some ⟨x - (objPosition (s.objects.getD i0 defaultObject)).x,
              y - (objPosition (s.objects.getD i0 defaultObject)).y⟩ ∧
      (onStartDrawing screenX screenY true env s).selectedIndices =
        (if ci ∈ s.selectedIndices then s.selectedIndices.filter (· ≠ ci)
         else s.selectedIndices ++ [ci]) ∧
      (onStartDrawing screenX screenY true env s).objects = s.objects) := by
  subst hx
  subst hy
  have hosd : onStartDrawing screenX screenY true env s =
      selectPointerDown env (screenToCanvas s screenX screenY).x
        (screenToCanvas s screenX screenY).y true s := by
    rw [onStartDrawing, htool]
    rw [if_neg (by decide), if_pos rfl]
  constructor
  · intro h1 h2 h3 h4 h5
    have hsp : onStartDrawing screenX screenY true env s =
        { s with selectedIndices := [ci] } := by
      rw [hosd, selectPointerDown]
      rw [h1]
      simp [hclick]
    rw [hsp]
    refine ⟨rfl, h3, rfl, rfl, ?_⟩
    intro mx my
    rw [onDrawing]
    rcases hps : s.panStart with _ | ps <;>
      simp [h2, h3, h4, h5, hps, htool]
  · intro i0 rest hsel hA hB
    rw [hsel] at hA
    have hsp : onStartDrawing screenX screenY true env s =
        { s with
          selectedIndices :=
            (if ci ∈ s.selectedIndices then s.selectedIndices.filter (· ≠ ci)
             else s.selectedIndices ++ [ci])
          dragOffset := some
            ⟨(screenToCanvas s screenX screenY).x -
              (objPosition (s.objects.getD i0 defaultObject)).x,
             (screenToCanvas s screenX screenY).y -
              (objPosition (s.objects.getD i0 defaultObject)).y⟩
          isDragging := true } := by
      rw [hosd, selectPointerDown]
      rw [hsel]
      rcases hgb : getGroupBounds env s.objects (i0 :: rest) with _ | gb
      · rcases rest with _ | ⟨r, rs⟩
        · have hB' := hB rfl
          rw [List.getD_eq_getElem?_getD] at hB'
          by_cases hc : 0 < (objectBounds env (s.objects[i0]?.getD defaultObject)).width ∧
              0 < (objectBounds env (s.objects[i0]?.getD defaultObject)).height
          · have hgrh : getResizeHandle (screenToCanvas s screenX screenY).x
                (screenToCanvas s screenX screenY).y
                (objectBounds env (s.objects[i0]?.getD defaultObject)) = none := by
              rcases hh : getResizeHandle (screenToCanvas s screenX screenY).x
                  (screenToCanvas s screenX screenY).y
                  (objectBounds env (s.objects[i0]?.getD defaultObject)) with _ | h
              · rfl
              · exact absurd ⟨hc.1, hc.2, by rw [hh]; rfl⟩ hB'
            simp [hgb, hclick, hc, hgrh]
          · simp [hgb, hclick, hc]
        · simp [hgb, hclick]
      · rw [hgb] at hA
        by_cases hc : 0 < gb.width ∧ 0 < gb.height
        · have hgrh : getResizeHandle (screenToCanvas s screenX screenY).x
              (screenToCanvas s screenX screenY).y gb = none := by
            rcases hh : getResizeHandle (screenToCanvas s screenX screenY).x
                (screenToCanvas s screenX screenY).y gb with _ | h
            · rfl
            · exact absurd ⟨hc.1, hc.2, by rw [hh]; rfl⟩ hA
          rcases rest with _ | ⟨r, rs⟩
          · have hB' := hB rfl
            rw [List.getD_eq_getElem?_getD] at hB'
            by_cases hc2 : 0 < (objectBounds env (s.objects[i0]?.getD defaultObject)).width ∧
                0 < (objectBounds env (s.objects[i0]?.getD defaultObject)).height
            · have hgrh2 : getResizeHandle (screenToCanvas s screenX screenY).x
                  (screenToCanvas s screenX screenY).y
                  (objectBounds env (s.objects[i0]?.getD defaultObject)) = none := by
                rcases hh : getResizeHandle (screenToCanvas s screenX screenY).x
                    (screenToCanvas s screenX screenY).y
                    (objectBounds env (s.objects[i0]?.getD defaultObject)) with _ | h
                · rfl
                · exact absurd ⟨hc2.1, hc2.2, by rw [hh]; rfl⟩ hB'
              simp [hgb, hclick, hc, hgrh, hc2, hgrh2]
            · simp [hgb, hclick, hc, hgrh, hc2]
          · simp [hgb, hclick, hc, hgrh]
        · rcases rest with _ | ⟨r, rs⟩
          · have hB' := hB rfl
            rw [List.getD_eq_getElem?_getD] at hB'
            by_cases hc2 : 0 < (objectBounds env (s.objects[i0]?.getD defaultObject)).width ∧
                0 < (objectBounds env (s.objects[i0]?.getD defaultObject)).height
            · have hgrh2 : getResizeHandle (screenToCanvas s screenX screenY).x
                  (screenToCanvas s screenX screenY).y
                  (objectBounds env (s.objects[i0]?.getD defaultObject)) = none := by
                rcases hh : getResizeHandle (screenToCanvas s screenX screenY).x
                    (screenToCanvas s screenX screenY).y
                    (objectBounds env (s.objects[i0]?.getD defaultObject)) with _ | h
                · rfl
                · exact absurd ⟨hc2.1, hc2.2, by rw [hh]; rfl⟩ hB'
              simp [hgb, hclick, hc, hgrh2, hc2]
            · simp [hgb, hclick, hc, hc2]
          · simp [hgb, hclick, hc]
    rw [hsp, hsel]
    exact ⟨rfl, rfl, rfl, rfl⟩

/-- Concrete scene for C10: two text objects with disjoint bounding boxes;
the pointer-down at (1, 1) hits `textA` (index 0) only. -/
def textA : DrawingObject := .text ⟨"a", ⟨1, 11⟩, "#000000", 10, "Arial"⟩

def textB : DrawingObject := .text ⟨"b", ⟨100, 110⟩, "#000000", 10, "Arial"⟩

def stateC10a : State :=
  { initState .select "#000000" 2 "#ffffff" with objects := [textA, textB] }

def stateC10b : State :=
  { initState .select "#000000" 2 "#ffffff" with
    objects := [textA, textB], selectedIndices := [1] }

theorem shift_click_selection_witness :
    (onStartDrawing 1 1 true envTrivial stateC10a).selectedIndices = [0] ∧
    (onStartDrawing 1 1 true envTrivial stateC10a).isDragging = false ∧
    onDrawing 5 7 (onStartDrawing 1 1 true envTrivial stateC10a) =
      onStartDrawing 1 1 true envTrivial stateC10a ∧
    (onStartDrawing 1 1 true envTrivial stateC10b).isDragging = true ∧
    (onStartDrawing 1 1 true envTrivial stateC10b).dragOffset =
      some ⟨1 - (objPosition (stateC10b.objects.getD 1 defaultObject)).x,
            1 - (objPosition (stateC10b.objects.getD 1 defaultObject)).y⟩ ∧
    (onStartDrawing 1 1 true envTrivial stateC10b).selectedIndices = [1, 0] := by
  have hxa : (1 : ℚ) = (screenToCanvas stateC10a 1 1).x := by
    norm_num [screenToCanvas, stateC10a, initState]
  have hya : (1 : ℚ) = (screenToCanvas stateC10a 1 1).y := by
    norm_num [screenToCanvas, stateC10a, initState]
  have hxb : (1 : ℚ) = (screenToCanvas stateC10b 1 1).x := by
    norm_num [screenToCanvas, stateC10b, initState]
  have hyb : (1 : ℚ) = (screenToCanvas stateC10b 1 1).y := by
    norm_num [screenToCanvas, stateC10b, initState]
  have hb0 : objectBounds envTrivial textA = ⟨1, 1, 0, 12⟩ := by
    norm_num [objectBounds, getTextBounds, envTrivial, textA]
  have hb1 : objectBounds envTrivial textB = ⟨100, 100, 0, 12⟩ := by
    norm_num [objectBounds, getTextBounds, envTrivial, textB]
  have hclicka : getPosition envTrivial stateC10a.objects 1 1 = some 0 := by
    have hlen : stateC10a.objects.length = 2 := rfl
    rw [getPosition, hlen]
    rw [getPositionAux, if_neg (by rw [show stateC10a.objects.getD 1 defaultObject = textB from rfl, hb1]; norm_num [isPointInBounds])]
    rw [getPositionAux, if_pos (by rw [show stateC10a.objects.getD 0 defaultObject = textA from rfl, hb0]; norm_num [isPointInBounds])]
  have hclickb : getPosition envTrivial stateC10b.objects 1 1 = some 0 := hclicka
  have hgb : getGroupBounds envTrivial stateC10b.objects [1] = some ⟨100, 100, 0, 12⟩ := by
    rw [getGroupBounds, if_neg (by simp)]
    rw [List.foldl_cons, List.foldl_nil, groupStep,
      show stateC10b.objects[1]? = some textB from rfl]
    dsimp only
    rw [hb1]
    norm_num
  have hA : noHandleHit 1 1 (getGroupBounds envTrivial stateC10b.objects stateC10b.selectedIndices) := by
    rw [show stateC10b.selectedIndices = [1] from rfl, hgb]
    simp [noHandleHit]
  have hB : noHandleHit 1 1 (some (objectBounds envTrivial (stateC10b.objects.getD 1 defaultObject))) := by
    rw [show stateC10b.objects.getD 1 defaultObject = textB from rfl, hb1]
    simp [noHandleHit]
  have ha := (shift_click_selection envTrivial stateC10a 1 1 0 1 1
    hxa hya rfl hclicka).1 rfl rfl rfl rfl rfl
  have hb := (shift_click_selection envTrivial stateC10b 1 1 0 1 1
    hxb hyb rfl hclickb).2 1 [] rfl hA (fun _ => hB)
  refine ⟨ha.1, ha.2.1, ha.2.2.2.2 5 7, hb.1, ?_, ?_⟩
  · exact hb.2.1
  · have h3 := hb.2.2.1
    simpa using h3

end DrawBoard
